import Mathlib

/-!
# Verification of the bishin discovery-to-job pipeline

Shallow embedding of the bishin repository's core pipeline:

* `bishin-parser/src/lib.rs` — the winnow parser for `@test name { ... }`
  blocks, embedded as total functions over `List Char`
  (`Option` models parse failure; greedy `repeat` loops are embedded with a
  fuel argument equal to the input length, which is sufficient because each
  iteration consumes at least one character);
* `bishin-collect/src/lib.rs` — `load_tests`, the pruning pass and the two
  module-graph views (filesystem walking is I/O, so `load_tests` is embedded
  over the entry list the `WalkDir` traversal yields: the root directory
  first, parents before their children);
* `bishin-generate/src/lib.rs` and `bishin-jobs/src/lib.rs` — script/job
  generation, with the filesystem modelled as an association list from path
  strings to file contents.
-/

namespace Bishin

/-! ## Parser (bishin-parser/src/lib.rs, mod parser) -/

/-- Embeds winnow's `till_line_ending`: consume characters up to (but not
including) `"\n"` or `"\r\n"`; succeed at end of input; a `'\r'` not
followed by `'\n'` is an error. -/
def tillLineEnding : List Char → Option (List Char × List Char)
  | [] => some ([], [])
  | c :: rest =>
    if c = '\n' then some ([], c :: rest)
    else if c = '\r' then
      match rest with
      | '\n' :: _ => some ([], c :: rest)
      | _ => none
    else
      match tillLineEnding rest with
      | none => none
      | some (l, r) => some (c :: l, r)

/-- Embeds winnow's `line_ending`: `"\n"` or `"\r\n"`. -/
def lineEndingP : List Char → Option (List Char × List Char)
  | [] => none
  | c :: rest =>
    if c = '\n' then some (['\n'], rest)
    else if c = '\r' then
      match rest with
      | c2 :: rest2 => if c2 = '\n' then some (['\r', '\n'], rest2) else none
      | [] => none
    else none

/-- Embeds `line`: `seq!(till_line_ending, line_ending)` verified not to
start with `'}'`; returns the pair `(line, line_ending)`. -/
def lineP (input : List Char) : Option ((List Char × List Char) × List Char) :=
  match tillLineEnding input with
  | none => none
  | some (l, r1) =>
    match lineEndingP r1 with
    | none => none
    | some (e, r2) => if l.head? = some '}' then none else some ((l, e), r2)

/-- Greedy repetition of `lineP` (winnow's `repeat`), with fuel.  A fuel of
the input length is enough since `lineP` always consumes at least the line
ending. -/
def manyLines : Nat → List Char → List (List Char × List Char) × List Char
  | 0, input => ([], input)
  | fuel + 1, input =>
    match lineP input with
    | none => ([], input)
    | some (le, rest) =>
      let r := manyLines fuel rest
      (le :: r.1, r.2)

/-- Embeds `test_body`: `repeat(1.., line)` — at least one line required. -/
def testBodyP (input : List Char) : Option (List (List Char × List Char) × List Char) :=
  let r := manyLines input.length input
  if r.1.isEmpty then none else some r

/-- Consume an exact literal (winnow's tag parsers such as `"@test "`). -/
def stripPrefixL : List Char → List Char → Option (List Char)
  | [], input => some input
  | _ :: _, [] => none
  | p :: ps, c :: cs => if c = p then stripPrefixL ps cs else none

/-- Characters accepted by `test_name`: `(AsChar::is_alphanum, '_')`,
i.e. ASCII alphanumerics and underscore. -/
def isNameChar (c : Char) : Bool := c.isAlphanum || c = '_'

/-- Longest prefix of name characters together with the remaining input. -/
def takeName : List Char → List Char × List Char
  | [] => ([], [])
  | c :: rest =>
    if isNameChar c then
      let r := takeName rest
      (c :: r.1, r.2)
    else ([], c :: rest)

/-- Embeds `test_name`: `take_while(1.., ...)` — at least one name char. -/
def testNameP (input : List Char) : Option (List Char × List Char) :=
  match takeName input with
  | ([], _) => none
  | (l, r) => some (l, r)

/-- Characters consumed by winnow's `multispace0`. -/
def isMultispace (c : Char) : Bool := c = ' ' || c = '\t' || c = '\r' || c = '\n'

/-- Embeds `multispace0`: drop any run of whitespace characters. -/
def dropMultispace : List Char → List Char
  | [] => []
  | c :: rest => if isMultispace c then dropMultispace rest else c :: rest

/-- An unprocessed parsed test borrowing from the input (`BorrowedTest`). -/
structure BorrowedTest where
  name : List Char
  body : List (List Char × List Char)
deriving DecidableEq, Repr

/-- A parsed test (`Test`). -/
structure Test where
  name : String
  body : String
deriving DecidableEq, Repr

/-- Embeds `BorrowedTest::to_test`: the body string is built by pushing each
line followed by its original line ending, in source order. -/
def toTest (bt : BorrowedTest) : Test :=
  { name := ⟨bt.name⟩
    body := ⟨bt.body.foldl (fun acc le => acc ++ le.1 ++ le.2) []⟩ }

/-- Embeds `test`: `"@test "`, name, `" {"`, line ending, body (at least one
line), `"}"`, line ending. -/
def testP (input : List Char) : Option (BorrowedTest × List Char) :=
  match stripPrefixL "@test ".data input with
  | none => none
  | some r1 =>
    match testNameP r1 with
    | none => none
    | some (name, r2) =>
      match stripPrefixL " \x7b".data r2 with
      | none => none
      | some r3 =>
        match lineEndingP r3 with
        | none => none
        | some (_, r4) =>
          match testBodyP r4 with
          | none => none
          | some (body, r5) =>
            match stripPrefixL "\x7d".data r5 with
            | none => none
            | some r6 =>
              match lineEndingP r6 with
              | none => none
              | some (_, r7) => some (⟨name, body⟩, r7)

/-- Greedy repetition of `terminated(test, multispace0)` (winnow `repeat(0..)`),
with fuel; a fuel of the input length suffices since `testP` consumes at
least the `"@test "` tag. -/
def manyTestsAux : Nat → List Char → List BorrowedTest × List Char
  | 0, input => ([], input)
  | fuel + 1, input =>
    match testP input with
    | none => ([], input)
    | some (bt, rest) =>
      let rest2 := dropMultispace rest
      let r := manyTestsAux fuel rest2
      (bt :: r.1, r.2)

/-- Embeds `test_file`: leading `multispace0`, then repeated tests each
followed by `multispace0`. -/
def testFileP (input : List Char) : List BorrowedTest × List Char :=
  let rest0 := dropMultispace input
  manyTestsAux rest0.length rest0

/-- Embeds `parse_test_file` on in-memory contents: winnow's `Parser::parse`
demands that the whole input is consumed, and each borrowed test is
converted with `to_test`.  `none` models the `Parse` error. -/
def parseTestFile (s : String) : Option (List Test) :=
  let r := testFileP s.data
  if r.2.isEmpty then some (r.1.map toTest) else none

/-! ## Module collection (bishin-collect/src/lib.rs) -/

/-- One filesystem entry yielded by the `WalkDir` traversal in `load_tests`:
its path (as the list of components from the walk root, root included) and
whether it is a regular file.  The walk yields the root directory first and
every parent before its children. -/
structure Entry where
  path : List String
  isFile : Bool
deriving DecidableEq, Repr

/-- Split a file name at its last `'.'`, returning the parts before and
after it; `none` when there is no dot. -/
def splitLastDot : List Char → Option (List Char × List Char)
  | [] => none
  | c :: rest =>
    match splitLastDot rest with
    | some (b, a) => some (c :: b, a)
    | none => if c = '.' then some ([], rest) else none

/-- Embeds Rust's `Path::file_stem` on a single path component: the part
before the last dot, except that a name whose only dot is leading is its
own stem. -/
def fileStem (s : String) : String :=
  match splitLastDot s.data with
  | none => s
  | some ([], _) => s
  | some (b, _) => ⟨b⟩

/-- Embeds Rust's `Path::extension` on a single path component. -/
def fileExt (s : String) : Option String :=
  match splitLastDot s.data with
  | none => none
  | some ([], _) => none
  | some (_, a) => some ⟨a⟩

/-- Extension of the final component of a path. -/
def fileExtOfPath (p : List String) : Option String :=
  match p.getLast? with
  | none => none
  | some s => fileExt s

/-- Path components rendered as the path string stored in `ProtoModule.file`. -/
def pathString (p : List String) : String := String.intercalate "/" p

/-- The `file` field computed for each walked entry in `load_tests`:
populated exactly for regular files whose extension is `FILE_EXTENSION`
(`"b"`). -/
def entryFile (e : Entry) : Option String :=
  if e.isFile && (fileExtOfPath e.path == some "b") then some (pathString e.path) else none

/-- Number of outgoing edges of the node at path `p` in the discovery graph:
`load_tests` adds an edge from the node whose path is the parent of each
entry's path, so this counts the entries whose parent path equals `p`. -/
def childCount (entries : List Entry) (p : List String) : Nat :=
  (entries.filter fun e => e.path.dropLast == p).length

/-- A compiled module (`Module`): `module_path` is the chain of node names
below the root, where each node's name is the `file_stem` of its final path
component. -/
structure Module where
  module_path : List String
  file : Option String
deriving DecidableEq, Repr

/-- Embeds the module built for a kept node by
`ProtoModuleGraph::to_module_graph`: the path components are the stems of
the walked path below the root, and the `file` field is passed through. -/
def mkModule (e : Entry) : Module :=
  { module_path := (e.path.drop 1).map fileStem
    file := entryFile e }

/-- The compiled module graph (`ModuleGraph`): its nodes in node-index
order, the root module first. -/
structure ModuleGraphV where
  modules : List Module
deriving DecidableEq, Repr

/-- Errors from `bishin-collect` that the pure embedding can produce
(`Walk`/`ReadRootDir`/`ReadEntry` are I/O failures outside the model). -/
inductive CollectError where
  | empty
  | other
deriving DecidableEq, Repr

/-- Result of `load_tests`; `panicked` models the out-of-bounds index panic
in `to_module_graph` when the root node itself was pruned. -/
inductive LoadResult where
  | panicked
  | err (e : CollectError)
  | ok (g : ModuleGraphV)
deriving DecidableEq, Repr

/-- Embeds `load_tests` on the walked entry list.  The pruning pass is the
single `filter_map` of the source: a node is kept iff its `file` field is
populated or it has at least one outgoing edge *in the unpruned graph*.
The `Empty` error corresponds to `root.is_none()`, which only holds when
the walk yielded no entries at all; the cycle check can never fail because
every edge strictly lengthens the path. -/
def loadTests (entries : List Entry) : LoadResult :=
  match entries with
  | [] => .err .empty
  | root :: _ =>
    let kept := entries.filter fun e => (entryFile e).isSome || childCount entries e.path != 0
    if root ∈ kept then .ok ⟨kept.map mkModule⟩ else .panicked

/-- Embeds `Module::module_path()`: the components joined with `"::"`. -/
def modulePathStr (m : Module) : String := String.intercalate "::" m.module_path

/-- Byte-lexicographic (equivalently scalar-value) order on character
lists, matching Rust's `Ord for String`. -/
def strLeL : List Char → List Char → Bool
  | [], _ => true
  | _ :: _, [] => false
  | a :: as, b :: bs =>
    if a.val.toNat < b.val.toNat then true
    else if b.val.toNat < a.val.toNat then false
    else strLeL as bs

/-- Rust's `String` order, on Lean strings. -/
def strLe (a b : String) : Bool := strLeL a.data b.data

/-- Strict version of `strLe`. -/
def strLt (a b : String) : Bool := strLe a b && !(a == b)

/-- Insert into a list sorted by a string key, keeping an element being
inserted before later elements with an equal key — the insertion step of a
stable sort, as Rust's `sort_by_key` is stable. -/
def insertByKey {α : Type} (k : α → String) (x : α) : List α → List α
  | [] => [x]
  | y :: ys => if strLe (k x) (k y) then x :: y :: ys else y :: insertByKey k x ys

/-- Stable insertion sort by a string key, embedding `sort_by_key`. -/
def sortByKey {α : Type} (k : α → String) : List α → List α
  | [] => []
  | x :: xs => insertByKey k x (sortByKey k xs)

/-- Embeds `ModuleGraph::iter_modules`: all nodes in index order, the root
skipped, sorted by the `module_path()` string. -/
def iterModules (g : ModuleGraphV) : List Module :=
  sortByKey modulePathStr (g.modules.drop 1)

/-- Embeds `ModuleGraph::iter_leaf_modules`: as `iter_modules` but keeping
only modules whose `file` field is populated. -/
def iterLeafModules (g : ModuleGraphV) : List Module :=
  sortByKey modulePathStr ((g.modules.drop 1).filter fun m => m.file.isSome)

/-- Component-wise (tuple) lexicographic order on module paths, with the
components compared as strings — the order the specification describes for
the two iteration views. -/
def tupleLe : List String → List String → Bool
  | [], _ => true
  | _ :: _, [] => false
  | a :: as, b :: bs => if strLt a b then true else if a == b then tupleLe as bs else false

/-! ## Job generation (bishin-generate/src/lib.rs, bishin-jobs/src/lib.rs) -/

/-- The module path of a module and the parsed tests it contained
(`ModuleTests`). -/
structure ModuleTests where
  module_path : List String
  tests : List Test
deriving DecidableEq, Repr

/-- Errors from `bishin-generate` (`Error`): a parse failure, the parser's
I/O failure, or a script write failure (writes cannot fail in the pure
store model). -/
inductive GenError where
  | parse
  | io
  | write
deriving DecidableEq, Repr

/-- Decidable equality for `Except` results, used to evaluate concrete
generation runs. -/
instance exceptDecEq {e a : Type} [DecidableEq e] [DecidableEq a] : DecidableEq (Except e a)
  | .error e1, .error e2 =>
    if h : e1 = e2 then isTrue (h ▸ rfl) else isFalse (fun hh => h (Except.error.inj hh))
  | .error _, .ok _ => isFalse (fun hh => Except.noConfusion hh)
  | .ok _, .error _ => isFalse (fun hh => Except.noConfusion hh)
  | .ok a1, .ok a2 =>
    if h : a1 = a2 then isTrue (h ▸ rfl) else isFalse (fun hh => h (Except.ok.inj hh))

/-- Embeds `load_module_tests`.  The outer `none` models the panic of
`file_path.unwrap()` when the module has no file; reading is through the
supplied `read` function, whose `none` is the parser's `Io` error. -/
def loadModuleTests (read : String → Option String) (m : Module) :
    Option (Except GenError ModuleTests) :=
  match m.file with
  | none => none
  | some p =>
    match read p with
    | none => some (.error .io)
    | some contents =>
      match parseTestFile contents with
      | none => some (.error .parse)
      | some tests => some (.ok { module_path := m.module_path, tests := tests })

/-- Embeds `module_test_file_name`: `format!("test_{}.sh", path.join("_"))`. -/
def moduleTestFileName (mp : List String) : String :=
  "test_" ++ String.intercalate "_" mp ++ ".sh"

/-- Embeds `transform_body`: the `formatdoc!` template expands to the
shebang line, a blank line, the body, and the template's final newline. -/
def transformBody (body : String) : String :=
  "#!/usr/bin/env bash\n\n" ++ body ++ "\n"

/-- Data about an individual test (`TestJob`). -/
structure TestJob where
  name : String
  module_path : List String
  script_path : String
  script_contents : String
deriving DecidableEq, Repr

/-- A job record (`Job`); `envs` is an association list standing for the
`HashMap`. -/
structure Job where
  name : String
  args : List String
  envs : List (String × String)
deriving DecidableEq, Repr

/-- Embeds `From<TestJob> for Job`. -/
def jobOfTestJob (tj : TestJob) : Job :=
  { name := String.intercalate "_" tj.module_path
    args := ["bash", tj.script_path]
    envs := [] }

/-- Embeds `Path::join` for the relative file names produced here. -/
def pathJoin (dir fname : String) : String :=
  if dir = "" then fname else dir ++ "/" ++ fname

/-- Embeds `test_jobs_for_module`: one `TestJob` per test in source order. -/
def testJobsForModule (outDir : String) (mt : ModuleTests) : List TestJob :=
  mt.tests.map fun t =>
    let fullPath := mt.module_path ++ [t.name]
    { name := t.name
      module_path := fullPath
      script_path := pathJoin outDir (moduleTestFileName fullPath)
      script_contents := transformBody t.body }

/-- `collect::<Result<Vec<_>, _>>` over a lazily mapped iterator that may
also panic: stop at the first error (later elements are then never
evaluated), propagate a panic (`none`). -/
def mapPanicExcept {α β : Type} (f : α → Option (Except GenError β)) :
    List α → Option (Except GenError (List β))
  | [] => some (.ok [])
  | a :: as =>
    match f a with
    | none => none
    | some (.error e) => some (.error e)
    | some (.ok b) =>
      match mapPanicExcept f as with
      | none => none
      | some (.error e) => some (.error e)
      | some (.ok bs) => some (.ok (b :: bs))

/-- Embeds `make_test_jobs`: parse every leaf module in view order, then
concatenate each module's test jobs. -/
def makeTestJobs (read : String → Option String) (outDir : String) (g : ModuleGraphV) :
    Option (Except GenError (List TestJob)) :=
  match mapPanicExcept (loadModuleTests read) (iterLeafModules g) with
  | none => none
  | some (.error e) => some (.error e)
  | some (.ok mts) =>
    some (.ok (mts.foldl (fun acc mt => acc ++ testJobsForModule outDir mt) []))

/-- The filesystem seen by generation: an association list from path
strings to file contents, newest write first. -/
abbrev FileStore := List (String × String)

/-- Read a file from the store. -/
def storeRead (st : FileStore) (p : String) : Option String :=
  match st with
  | [] => none
  | kv :: rest => if kv.1 = p then some kv.2 else storeRead rest p

/-- Write (create or overwrite) a file in the store. -/
def storeWrite (st : FileStore) (p c : String) : FileStore := (p, c) :: st

/-- Embeds `write_test_scripts`: write each script in job order
(each write overwrites any earlier file at the same path). -/
def writeTestScripts (st : FileStore) (tjs : List TestJob) : FileStore :=
  tjs.foldl (fun s tj => storeWrite s tj.script_path tj.script_contents) st

/-- Embeds `generate_test_jobs`: build the test jobs, write the scripts,
convert to `Job` records. -/
def generateTestJobs (outDir : String) (g : ModuleGraphV) (st : FileStore) :
    Option (Except GenError (List Job × FileStore)) :=
  match makeTestJobs (storeRead st) outDir g with
  | none => none
  | some (.error e) => some (.error e)
  | some (.ok tjs) => some (.ok (tjs.map jobOfTestJob, writeTestScripts st tjs))

/-- The job list of a generation run, forgetting the final store. -/
def runJobs : Option (Except GenError (List Job × FileStore)) →
    Option (Except GenError (List Job))
  | none => none
  | some (.error e) => some (.error e)
  | some (.ok (js, _)) => some (.ok js)

/-- Drop the first line of a character list (through the first `'\n'`). -/
def dropLineL : List Char → List Char
  | [] => []
  | c :: rest => if c = '\n' then rest else dropLineL rest

/-- Drop the first line of a string. -/
def dropLineStr (s : String) : String := ⟨dropLineL s.data⟩

/-- Extra definition for stating the round-trip: strip the two prepended
lines of a generated script. -/
def stripTwoLines (s : String) : String := dropLineStr (dropLineStr s)

/-! ## Parser lemmas -/

theorem tillLineEnding_eq : ∀ (cs l r : List Char), tillLineEnding cs = some (l, r) → cs = l ++ r := by
  intro cs
  induction cs with
  | nil =>
    intro l r h
    simp only [tillLineEnding, Option.some.injEq, Prod.mk.injEq] at h
    simp [← h.1, ← h.2]
  | cons c rest ih =>
    intro l r h
    simp only [tillLineEnding] at h
    split at h
    · simp only [Option.some.injEq, Prod.mk.injEq] at h
      simp [← h.1, ← h.2]
    · split at h
      · split at h
        · simp only [Option.some.injEq, Prod.mk.injEq] at h
          simp [← h.1, ← h.2]
        · exact absurd h (by simp)
      · split at h
        · exact absurd h (by simp)
        · next l2 r2 heq =>
          simp only [Option.some.injEq, Prod.mk.injEq] at h
          rw [← h.1, ← h.2]
          simp [ih l2 r2 heq]

theorem lineEndingP_eq :
    ∀ (cs e r : List Char), lineEndingP cs = some (e, r) →
      cs = e ++ r ∧ (e = ['\n'] ∨ e = ['\r', '\n']) := by
  intro cs e r h
  match cs with
  | [] => exact absurd h (by simp [lineEndingP])
  | c :: rest =>
    simp only [lineEndingP] at h
    split at h
    · next hc =>
      simp only [Option.some.injEq, Prod.mk.injEq] at h
      subst hc
      simp [← h.1, ← h.2]
    · split at h
      · next hcr =>
        subst hcr
        match rest with
        | [] => exact absurd h (by simp)
        | c2 :: rest2 =>
          simp only at h
          split at h
          · next hc2 =>
            subst hc2
            simp only [Option.some.injEq, Prod.mk.injEq] at h
            simp [← h.1, ← h.2]
          · exact absurd h (by simp)
      · exact absurd h (by simp)

theorem lineP_eq :
    ∀ (input l e rest : List Char), lineP input = some ((l, e), rest) →
      input = l ++ e ++ rest ∧ (e = ['\n'] ∨ e = ['\r', '\n']) ∧ l.head? ≠ some '}' := by
  intro input l e rest h
  simp only [lineP] at h
  split at h
  · exact absurd h (by simp)
  · next l0 r1 heq1 =>
    split at h
    · exact absurd h (by simp)
    · next e0 r2 heq2 =>
      split at h
      · exact absurd h (by simp)
      · next hguard =>
        simp only [Option.some.injEq, Prod.mk.injEq] at h
        have h1 := tillLineEnding_eq input l0 r1 heq1
        have h2 := lineEndingP_eq r1 e0 r2 heq2
        obtain ⟨⟨hl, he⟩, hr⟩ := h
        subst hl
        subst he
        subst hr
        exact ⟨by rw [h1, h2.1, List.append_assoc], h2.2, hguard⟩

theorem lineP_no_brace :
    ∀ (input : List Char) (le : List Char × List Char) (rest : List Char),
      lineP input = some (le, rest) → le.1.head? ≠ some '}' := by
  intro input le rest h
  simp only [lineP] at h
  split at h
  · exact absurd h (by simp)
  · split at h
    · exact absurd h (by simp)
    · split at h
      · exact absurd h (by simp)
      · next hguard =>
        simp only [Option.some.injEq, Prod.mk.injEq] at h
        rw [← h.1]
        exact hguard

theorem manyLines_no_brace :
    ∀ (fuel : Nat) (input : List Char) (le : List Char × List Char),
      le ∈ (manyLines fuel input).1 → le.1.head? ≠ some '}' := by
  intro fuel
  induction fuel with
  | zero => intro input le h; simp [manyLines] at h
  | succ n ih =>
    intro input le h
    simp only [manyLines] at h
    split at h
    · simp at h
    · next le0 rest heq =>
      simp only [List.mem_cons] at h
      rcases h with rfl | h
      · exact lineP_no_brace input le rest heq
      · exact ih rest le h

theorem testBodyP_no_brace :
    ∀ (input : List Char) (body : List (List Char × List Char)) (rest : List Char),
      testBodyP input = some (body, rest) → ∀ le ∈ body, le.1.head? ≠ some '}' := by
  intro input body rest h le hle
  simp only [testBodyP] at h
  split at h
  · exact absurd h (by simp)
  · simp only [Option.some.injEq] at h
    have hb : (manyLines input.length input).1 = body := by rw [h]
    rw [← hb] at hle
    exact manyLines_no_brace input.length input le hle

theorem testP_no_brace :
    ∀ (input : List Char) (bt : BorrowedTest) (rest : List Char),
      testP input = some (bt, rest) → ∀ le ∈ bt.body, le.1.head? ≠ some '}' := by
  intro input bt rest h le hle
  simp only [testP] at h
  split at h
  · exact absurd h (by simp)
  · split at h
    · exact absurd h (by simp)
    · split at h
      · exact absurd h (by simp)
      · split at h
        · exact absurd h (by simp)
        · split at h
          · exact absurd h (by simp)
          · next body r5 hbody =>
            split at h
            · exact absurd h (by simp)
            · split at h
              · exact absurd h (by simp)
              · simp only [Option.some.injEq, Prod.mk.injEq] at h
                rw [← h.1] at hle
                exact testBodyP_no_brace _ body r5 hbody le hle

theorem manyTestsAux_no_brace :
    ∀ (fuel : Nat) (input : List Char) (bt : BorrowedTest),
      bt ∈ (manyTestsAux fuel input).1 → ∀ le ∈ bt.body, le.1.head? ≠ some '}' := by
  intro fuel
  induction fuel with
  | zero => intro input bt h; simp [manyTestsAux] at h
  | succ n ih =>
    intro input bt h
    simp only [manyTestsAux] at h
    split at h
    · simp at h
    · next bt0 rest heq =>
      simp only [List.mem_cons] at h
      rcases h with rfl | h
      · exact testP_no_brace input bt rest heq
      · exact ih (dropMultispace rest) bt h

/-! ## Sorting lemmas -/

theorem strLeL_total : ∀ a b : List Char, strLeL a b = true ∨ strLeL b a = true := by
  intro a
  induction a with
  | nil => intro b; left; rfl
  | cons x xs ih =>
    intro b
    cases b with
    | nil => right; rfl
    | cons y ys =>
      by_cases h1 : x.val.toNat < y.val.toNat
      · left; simp [strLeL, h1]
      · by_cases h2 : y.val.toNat < x.val.toNat
        · right; simp [strLeL, h2]
        · rcases ih ys with h | h
          · left; simp [strLeL, h1, h2, h]
          · right; simp [strLeL, h1, h2, h]

theorem strLe_total (a b : String) : strLe a b = true ∨ strLe b a = true :=
  strLeL_total a.data b.data

theorem head?_insertByKey {α : Type} (k : α → String) (x : α) (l : List α) :
    (insertByKey k x l).head? = some x ∨ (insertByKey k x l).head? = l.head? := by
  cases l with
  | nil => left; rfl
  | cons y ys =>
    by_cases hle : strLe (k x) (k y) = true
    · left; simp [insertByKey, hle]
    · right; simp [insertByKey, hle]

theorem chain'_insertByKey {α : Type} (k : α → String) (x : α) :
    ∀ l : List α, List.Chain' (fun a b => strLe (k a) (k b) = true) l →
      List.Chain' (fun a b => strLe (k a) (k b) = true) (insertByKey k x l) := by
  intro l
  induction l with
  | nil => intro _; simp [insertByKey]
  | cons y ys ih =>
    intro h
    rw [List.chain'_cons'] at h
    obtain ⟨hhead, htail⟩ := h
    by_cases hle : strLe (k x) (k y) = true
    · simp only [insertByKey, if_pos hle]
      rw [List.chain'_cons']
      constructor
      · intro b hb
        simp only [List.head?_cons, Option.mem_def, Option.some.injEq] at hb
        rw [← hb]
        exact hle
      · exact List.chain'_cons'.mpr ⟨hhead, htail⟩
    · simp only [insertByKey, if_neg hle]
      rw [List.chain'_cons']
      constructor
      · intro b hb
        rcases head?_insertByKey k x ys with hh | hh
        · rw [hh] at hb
          simp only [Option.mem_def, Option.some.injEq] at hb
          rw [← hb]
          rcases strLe_total (k x) (k y) with h1 | h1
          · exact absurd h1 hle
          · exact h1
        · rw [hh] at hb
          exact hhead b hb
      · exact ih htail

theorem chain'_sortByKey {α : Type} (k : α → String) :
    ∀ l : List α, List.Chain' (fun a b => strLe (k a) (k b) = true) (sortByKey k l) := by
  intro l
  induction l with
  | nil => exact List.chain'_nil
  | cons x xs ih => exact chain'_insertByKey k x _ ih

theorem mem_insertByKey {α : Type} (k : α → String) (x y : α) :
    ∀ l : List α, y ∈ insertByKey k x l ↔ y = x ∨ y ∈ l := by
  intro l
  induction l with
  | nil => simp [insertByKey]
  | cons z zs ih =>
    by_cases hle : strLe (k x) (k z) = true
    · simp [insertByKey, hle]
    · simp only [insertByKey, if_neg hle, List.mem_cons, ih]
      tauto

theorem mem_sortByKey {α : Type} (k : α → String) (y : α) :
    ∀ l : List α, y ∈ sortByKey k l ↔ y ∈ l := by
  intro l
  induction l with
  | nil => simp [sortByKey]
  | cons x xs ih => simp [sortByKey, mem_insertByKey, ih]

/-! ## Generation lemmas -/

theorem loadModuleTests_congr (r1 r2 : String → Option String) (m : Module)
    (h : ∀ p, m.file = some p → r1 p = r2 p) :
    loadModuleTests r1 m = loadModuleTests r2 m := by
  cases hf : m.file with
  | none => simp [loadModuleTests, hf]
  | some p => simp [loadModuleTests, hf, h p hf]

theorem mapPanicExcept_congr {α β : Type} (f g : α → Option (Except GenError β)) :
    ∀ l : List α, (∀ a ∈ l, f a = g a) → mapPanicExcept f l = mapPanicExcept g l := by
  intro l
  induction l with
  | nil => intro _; rfl
  | cons a as ih =>
    intro h
    simp only [mapPanicExcept]
    rw [h a (by simp), ih (fun b hb => h b (by simp [hb]))]

theorem makeTestJobs_congr (outDir : String) (g : ModuleGraphV) (r1 r2 : String → Option String)
    (h : ∀ m ∈ iterLeafModules g, ∀ p, m.file = some p → r1 p = r2 p) :
    makeTestJobs r1 outDir g = makeTestJobs r2 outDir g := by
  unfold makeTestJobs
  rw [mapPanicExcept_congr _ _ _ (fun m hm => loadModuleTests_congr r1 r2 m (h m hm))]

/-! ## Concrete scenarios used by the claim theorems -/

/-- Walked entries for a root directory holding only one empty
subdirectory. -/
def entsC3 : List Entry := [⟨["root"], false⟩, ⟨["root", "sub"], false⟩]

/-- Walked entries for a root holding the file `a0.b` and the directory `a`
with the file `a/b.b`. -/
def entsC2 : List Entry :=
  [⟨["root"], false⟩, ⟨["root", "a0.b"], true⟩, ⟨["root", "a"], false⟩,
   ⟨["root", "a", "b.b"], true⟩]

/-- The module graph `load_tests` compiles from `entsC2`. -/
def gC2 : ModuleGraphV :=
  ⟨[⟨[], none⟩, ⟨["a0"], some "root/a0.b"⟩, ⟨["a"], none⟩, ⟨["a", "b"], some "root/a/b.b"⟩]⟩

/-- Walked entries for a root holding the directory `a` (whose only content
is the empty directory `a/b`) and the test file `t.b`. -/
def entsC4 : List Entry :=
  [⟨["root"], false⟩, ⟨["root", "a"], false⟩, ⟨["root", "a", "b"], false⟩,
   ⟨["root", "t.b"], true⟩]

/-- The module graph `load_tests` compiles from `entsC4`. -/
def gC4 : ModuleGraphV := ⟨[⟨[], none⟩, ⟨["a"], none⟩, ⟨["t"], some "root/t.b"⟩]⟩

/-- A one-test module used for the script-contents counterexample. -/
def mtC1 : ModuleTests := ⟨["m"], [⟨"foo", " echo hi\n"⟩]⟩

/-- A one-test module used for the job-fields witness. -/
def mtC7 : ModuleTests := ⟨["mod"], [⟨"t1", " body\n"⟩]⟩

/-- Walked entries for a root holding `a_b.b` and `a/b.b`, whose full test
paths `["a_b", "c"]` and `["a", "b", "c"]` collide after joining with
underscores. -/
def entsC9 : List Entry :=
  [⟨["r"], false⟩, ⟨["r", "a"], false⟩, ⟨["r", "a", "b.b"], true⟩, ⟨["r", "a_b.b"], true⟩]

/-- The contents of the two test files of `entsC9`: each holds one test
named `c`, with different bodies. -/
def stC9 : FileStore :=
  [("r/a/b.b", "@test c \x7b\n x\n\x7d\n"), ("r/a_b.b", "@test c \x7b\n y\n\x7d\n")]

/-- The module graph `load_tests` compiles from `entsC9`. -/
def gC9 : ModuleGraphV :=
  ⟨[⟨[], none⟩, ⟨["a"], none⟩, ⟨["a", "b"], some "r/a/b.b"⟩, ⟨["a_b"], some "r/a_b.b"⟩]⟩

/-- The job generated for both colliding tests of the `entsC9` tree. -/
def jobC9 : Job := ⟨"a_b_c", ["bash", "out/test_a_b_c.sh"], []⟩

/-- The store after generating from `gC9`: the script for `a::b::c` is
written first and then overwritten by the script for `a_b::c`. -/
def stC9' : FileStore :=
  ("out/test_a_b_c.sh", "#!/usr/bin/env bash\n\n y\n\n") ::
    ("out/test_a_b_c.sh", "#!/usr/bin/env bash\n\n x\n\n") :: stC9

/-- A module graph with a single leaf module backed by `r/m.b`. -/
def gW8 : ModuleGraphV := ⟨[⟨[], none⟩, ⟨["m"], some "r/m.b"⟩]⟩

/-- A store holding the one test file of `gW8`. -/
def stW8 : FileStore := [("r/m.b", "@test foo \x7b\n hi\n\x7d\n")]

/-- The jobs of a generation run over `gW8`/`stW8`. -/
def jobsW8 : List Job := [⟨"m_foo", ["bash", "out/test_m_foo.sh"], []⟩]

/-- The store after that run: the generated script is prepended. -/
def stW8' : FileStore := ("out/test_m_foo.sh", "#!/usr/bin/env bash\n\n hi\n\n") :: stW8

/-! ## Claim theorems -/

/-- Claim C5: parsing preserves body bytes.  Every successfully parsed line
is a verbatim slice of the input followed by its original line-ending bytes
(`"\n"` or `"\r\n"`); a `Test`'s body is the concatenation of its raw lines
with their endings in source order; and parsing
`"@test foo {\n echo hi\n}\n"` yields exactly one test named `foo` with
body `" echo hi\n"`. -/
theorem c5_body_bytes :
    (∀ input l e rest : List Char, lineP input = some ((l, e), rest) →
        input = l ++ e ++ rest ∧ (e = ['\n'] ∨ e = ['\r', '\n'])) ∧
    (∀ bt : BorrowedTest,
        (toTest bt).body.data = bt.body.foldl (fun acc le => acc ++ le.1 ++ le.2) []) ∧
    parseTestFile "@test foo \x7b\n echo hi\n\x7d\n" = some [⟨"foo", " echo hi\n"⟩] := by
  refine ⟨?_, fun bt => rfl, by decide⟩
  intro input l e rest h
  have h3 := lineP_eq input l e rest h
  exact ⟨h3.1, h3.2.1⟩

/-- Witness for C5: the theorem applied to the body line of the concrete
file, recovering its bytes. -/
theorem c5_witness :
    " echo hi\n".data = " echo hi".data ++ ['\n'] ++ ([] : List Char) ∧
      ((['\n'] : List Char) = ['\n'] ∨ (['\n'] : List Char) = ['\r', '\n']) :=
  c5_body_bytes.1 " echo hi\n".data " echo hi".data ['\n'] [] (by decide)

/-- Claim C6: a body line beginning with `'}'` never parses — every line of
every test in any successful parse has a first character other than `'}'` —
and the concrete file `"@test foo {\n}x\n}\n"`, whose body would contain
the line `"}x"`, is a parse error. -/
theorem c6_brace_rejected :
    (∀ (input : List Char) (bt : BorrowedTest) (le : List Char × List Char),
        bt ∈ (testFileP input).1 → le ∈ bt.body → le.1.head? ≠ some '}') ∧
    parseTestFile "@test foo \x7b\n\x7dx\n\x7d\n" = none := by
  constructor
  · intro input bt le hbt hle
    simp only [testFileP] at hbt
    exact manyTestsAux_no_brace _ _ bt hbt le hle
  · decide

/-- Witness for C6: the theorem applied to the parse of a concrete valid
file and its only body line. -/
theorem c6_witness : (" hi".data, ['\n']).1.head? ≠ some '}' :=
  c6_brace_rejected.1 "@test foo \x7b\n hi\n\x7d\n".data
    ⟨"foo".data, [(" hi".data, ['\n'])]⟩ (" hi".data, ['\n']) (by decide) (by decide)

/-- Claim C1 (amended): the generated script consists of the shebang line,
a blank line, the verbatim test body, and one extra trailing newline from
the `formatdoc!` template; stripping the two prepended lines recovers
`body ++ "\n"`, not the body alone. -/
theorem c1_script_roundtrip (outDir : String) (mt : ModuleTests) (i : Nat) (t : Test)
    (h : mt.tests[i]? = some t) :
    (testJobsForModule outDir mt)[i]?.map TestJob.script_contents
        = some (transformBody t.body) ∧
    transformBody t.body = "#!/usr/bin/env bash\n\n" ++ t.body ++ "\n" ∧
    stripTwoLines (transformBody t.body) = t.body ++ "\n" := by
  refine ⟨?_, rfl, ?_⟩
  · simp only [testJobsForModule, List.getElem?_map, h, Option.map_some']
  · rfl

/-- Counterexample for C1: the script generated for body `" echo hi\n"` is
not the shebang line, blank line and body alone — an extra newline
follows. -/
theorem c1_counterexample :
    (testJobsForModule "out" mtC1).map TestJob.script_contents
        = ["#!/usr/bin/env bash\n\n echo hi\n\n"] ∧
    ("#!/usr/bin/env bash\n\n echo hi\n\n" : String)
        ≠ "#!/usr/bin/env bash\n\n" ++ " echo hi\n" := by
  exact ⟨rfl, by decide⟩

/-- Witness for C1: the amended theorem applied to the single test of
`mtC1`. -/
theorem c1_witness :
    (testJobsForModule "out" mtC1)[0]?.map TestJob.script_contents
        = some (transformBody " echo hi\n") ∧
    transformBody " echo hi\n" = "#!/usr/bin/env bash\n\n" ++ " echo hi\n" ++ "\n" ∧
    stripTwoLines (transformBody " echo hi\n") = " echo hi\n" ++ "\n" :=
  c1_script_roundtrip "out" mtC1 0 ⟨"foo", " echo hi\n"⟩ (by decide)

/-- Claim C2 (amended): both iteration views are sorted by the
`module_path()` string — the components joined with `"::"` — under
byte-lexicographic string order. -/
theorem c2_views_sorted (g : ModuleGraphV) :
    List.Chain' (fun a b => strLe (modulePathStr a) (modulePathStr b) = true) (iterModules g) ∧
    List.Chain' (fun a b => strLe (modulePathStr a) (modulePathStr b) = true) (iterLeafModules g) :=
  ⟨chain'_sortByKey modulePathStr _, chain'_sortByKey modulePathStr _⟩

/-- Counterexample for C2: compiling the `entsC2` tree, both views place
`["a0"]` before `["a", "b"]` (because `"a0" < "a::b"` as strings) although
component-wise tuple order demands `["a", "b"]` before `["a0"]`, so neither
view is sorted in lexicographic tuple order. -/
theorem c2_counterexample :
    loadTests entsC2 = .ok gC2 ∧
    (iterModules gC2).map Module.module_path = [["a"], ["a0"], ["a", "b"]] ∧
    (iterLeafModules gC2).map Module.module_path = [["a0"], ["a", "b"]] ∧
    tupleLe ["a0"] ["a", "b"] = false := by decide

/-- Claim C3: `load_tests` on a root whose only content is an empty
subdirectory does NOT return the `Empty` error — it succeeds with a module
graph whose two views are both empty (and on a completely empty root
directory it panics in `to_module_graph` instead), because the
`root.is_none()` check guarding `Error::Empty` can only fire when the walk
yielded no entries at all. -/
theorem c3_no_empty_error :
    loadTests entsC3 = .ok ⟨[⟨[], none⟩]⟩ ∧
    iterModules ⟨[⟨[], none⟩]⟩ = [] ∧
    iterLeafModules ⟨[⟨[], none⟩]⟩ = [] ∧
    loadTests [⟨["root"], false⟩] = .panicked := by decide

/-- Claim C4 (amended): pruning is a single pass, not a fixed point — every
module of a compiled graph either has a file or corresponds to an entry
with at least one child in the *unpruned* discovery graph.  A directory
whose children are all themselves pruned is therefore retained. -/
theorem c4_single_pass_prune (entries : List Entry) (g : ModuleGraphV) (m : Module)
    (hload : loadTests entries = .ok g) (hm : m ∈ iterModules g) :
    m.file.isSome = true ∨
      ∃ e : Entry, e ∈ entries ∧ mkModule e = m ∧ childCount entries e.path ≠ 0 := by
  cases entries with
  | nil => exact absurd hload (by simp [loadTests])
  | cons root rest =>
    simp only [loadTests] at hload
    split at hload
    · next hroot =>
      have hg : g = ⟨((root :: rest).filter fun e =>
          (entryFile e).isSome || childCount (root :: rest) e.path != 0).map mkModule⟩ := by
        cases hload
        rfl
      have hmem : m ∈ g.modules := by
        have h1 : m ∈ g.modules.drop 1 := (mem_sortByKey modulePathStr m _).mp hm
        exact List.mem_of_mem_drop h1
      rw [hg] at hmem
      simp only [List.mem_map] at hmem
      obtain ⟨e, he, hme⟩ := hmem
      have he2 := List.mem_filter.mp he
      rcases Bool.or_eq_true _ _ |>.mp he2.2 with hf | hc
      · left
        rw [← hme]
        exact hf
      · right
        exact ⟨e, he2.1, hme, by simpa using hc⟩
    · exact absurd hload (by simp)

/-- Witness for C4: the module `["a"]` of the `entsC4` tree has no file,
and the theorem exhibits its discovery-graph child. -/
theorem c4_witness :
    (⟨["a"], none⟩ : Module).file.isSome = true ∨
      ∃ e : Entry, e ∈ entsC4 ∧ mkModule e = ⟨["a"], none⟩ ∧ childCount entsC4 e.path ≠ 0 :=
  c4_single_pass_prune entsC4 gC4 ⟨["a"], none⟩ (by decide) (by decide)

/-- Counterexample for C4: in the graph compiled from `entsC4`, the module
`["a"]` — a directory whose only content was the empty directory `a/b`,
pruned in the same pass — has no file and no descendant at all, yet it
appears in the all-modules view. -/
theorem c4_counterexample :
    loadTests entsC4 = .ok gC4 ∧
    (⟨["a"], none⟩ : Module) ∈ iterModules gC4 ∧
    (iterModules gC4).map Module.module_path = [["a"], ["t"]] ∧
    (iterModules gC4).map Module.file = [none, some "root/t.b"] ∧
    (iterLeafModules gC4).map Module.module_path = [["t"]] := by decide

/-- Claim C7: the `i`-th test of a module yields the script filename
`test_<components joined with _>.sh` for the full path (module path plus
test name), and a `Job` whose name is the full path joined with `_`, whose
args are exactly `["bash", <script path>]`, and whose env mapping is
empty. -/
theorem c7_job_fields (outDir : String) (mt : ModuleTests) (i : Nat) (t : Test)
    (h : mt.tests[i]? = some t) :
    (testJobsForModule outDir mt)[i]?
        = some { name := t.name, module_path := mt.module_path ++ [t.name],
                 script_path := pathJoin outDir (moduleTestFileName (mt.module_path ++ [t.name])),
                 script_contents := transformBody t.body } ∧
    moduleTestFileName (mt.module_path ++ [t.name])
        = "test_" ++ String.intercalate "_" (mt.module_path ++ [t.name]) ++ ".sh" ∧
    ((testJobsForModule outDir mt)[i]?).map jobOfTestJob
        = some { name := String.intercalate "_" (mt.module_path ++ [t.name]),
                 args := ["bash", pathJoin outDir (moduleTestFileName (mt.module_path ++ [t.name]))],
                 envs := [] } := by
  refine ⟨?_, rfl, ?_⟩
  · simp only [testJobsForModule, List.getElem?_map, h, Option.map_some']
  · simp only [testJobsForModule, List.getElem?_map, h, Option.map_some']
    rfl

/-- Witness for C7: the theorem applied to the single test of `mtC7`. -/
theorem c7_witness :
    (testJobsForModule "out" mtC7)[0]?
        = some { name := "t1", module_path := ["mod", "t1"],
                 script_path := pathJoin "out" (moduleTestFileName ["mod", "t1"]),
                 script_contents := transformBody " body\n" } ∧
    moduleTestFileName ["mod", "t1"]
        = "test_" ++ String.intercalate "_" (["mod"] ++ ["t1"]) ++ ".sh" ∧
    ((testJobsForModule "out" mtC7)[0]?).map jobOfTestJob
        = some { name := String.intercalate "_" (["mod"] ++ ["t1"]),
                 args := ["bash", pathJoin "out" (moduleTestFileName ["mod", "t1"])],
                 envs := [] } :=
  c7_job_fields "out" mtC7 0 ⟨"t1", " body\n"⟩ (by decide)

/-- Claim C10: every module in the leaf-modules view has a populated file
path, so the `file_path.unwrap()` in `load_module_tests` cannot panic on
modules obtained from `iter_leaf_modules` (its embedded result is always
`some`, never the panic `none`). -/
theorem c10_leaf_file_present (g : ModuleGraphV) (read : String → Option String) (m : Module)
    (hm : m ∈ iterLeafModules g) :
    m.file.isSome = true ∧ (loadModuleTests read m).isSome = true := by
  have h1 : m ∈ (g.modules.drop 1).filter (fun m => m.file.isSome) :=
    (mem_sortByKey modulePathStr m _).mp hm
  have h2 := (List.mem_filter.mp h1).2
  refine ⟨h2, ?_⟩
  cases hf : m.file with
  | none => rw [hf] at h2; simp at h2
  | some p =>
    simp only [loadModuleTests, hf]
    split
    · rfl
    · split <;> rfl

/-- Witness for C10: the theorem applied to the leaf module of `gW8` and an
empty store. -/
theorem c10_witness :
    (⟨["m"], some "r/m.b"⟩ : Module).file.isSome = true ∧
      (loadModuleTests (storeRead []) ⟨["m"], some "r/m.b"⟩).isSome = true :=
  c10_leaf_file_present gW8 (storeRead []) ⟨["m"], some "r/m.b"⟩ (by decide)

/-- Claim C8: generation is deterministic and idempotent.  If a run over an
unchanged module tree succeeded, and the files of the leaf modules read
back unchanged after the run (the tree is unchanged), then a second run
builds byte-identical test jobs — hence byte-identical script contents —
and returns the identical ordered job list. -/
theorem c8_idempotent (outDir : String) (g : ModuleGraphV) (st : FileStore)
    (jobs : List Job) (st1 : FileStore)
    (h1 : generateTestJobs outDir g st = some (.ok (jobs, st1)))
    (h2 : ∀ m ∈ iterLeafModules g, ∀ p, m.file = some p → storeRead st1 p = storeRead st p) :
    makeTestJobs (storeRead st1) outDir g = makeTestJobs (storeRead st) outDir g ∧
    runJobs (generateTestJobs outDir g st1) = some (.ok jobs) := by
  have hcongr := makeTestJobs_congr outDir g (storeRead st1) (storeRead st) h2
  refine ⟨hcongr, ?_⟩
  cases hmk : makeTestJobs (storeRead st) outDir g with
  | none => simp [generateTestJobs, hmk] at h1
  | some res =>
    cases res with
    | error e => simp [generateTestJobs, hmk] at h1
    | ok tjs =>
      simp only [generateTestJobs, hmk, Option.some.injEq, Except.ok.injEq,
        Prod.mk.injEq] at h1
      simp [generateTestJobs, hcongr, hmk, runJobs, h1.1]

/-- Witness for C8: a concrete run over `gW8`/`stW8` whose written script
does not shadow the test file, re-run from the post-run store. -/
theorem c8_witness :
    makeTestJobs (storeRead stW8') "out" gW8 = makeTestJobs (storeRead stW8) "out" gW8 ∧
    runJobs (generateTestJobs "out" gW8 stW8') = some (.ok jobsW8) := by
  apply c8_idempotent "out" gW8 stW8 jobsW8 stW8'
  · decide
  · intro m hm p hp
    have hleaf : iterLeafModules gW8 = [⟨["m"], some "r/m.b"⟩] := by decide
    rw [hleaf] at hm
    simp only [List.mem_singleton] at hm
    subst hm
    have hp2 : p = "r/m.b" := (Option.some.inj hp).symm
    subst hp2
    decide

/-- Claim C9: the underscore-joined naming is not injective — the distinct
full paths `["a_b", "c"]` and `["a", "b", "c"]`, both arising from the
`entsC9` tree, share one script filename and one job name; generation
yields two jobs with the same name, and the later-written script
overwrites the earlier one. -/
theorem c9_collision :
    moduleTestFileName ["a_b", "c"] = moduleTestFileName ["a", "b", "c"] ∧
    (["a_b", "c"] : List String) ≠ ["a", "b", "c"] ∧
    loadTests entsC9 = .ok gC9 ∧
    generateTestJobs "out" gC9 stC9 = some (.ok ([jobC9, jobC9], stC9')) ∧
    storeRead stC9' "out/test_a_b_c.sh" = some "#!/usr/bin/env bash\n\n y\n\n" ∧
    ("#!/usr/bin/env bash\n\n y\n\n" : String) ≠ "#!/usr/bin/env bash\n\n x\n\n" := by
  decide

end Bishin
